import Mathlib

/-!
Verification development for the fleet repository.

Part 1 models the live-query distribution store. The repository ships only
the `LiveQueryStore` Go interface (`RunQuery`, `StopQuery`, `QueriesForHost`,
`QueryCompletedByHost`, `CleanupInactiveQueries`); the implementation behind
that interface is absent from the sources, so the store's state and the
effect of each operation are modelled from the specification's data model
(Campaign Registry, Pending Delivery Records, Completion Tracker,
Reconciler).

Part 2 models the macOS setup-experience orchestrator
(`orbit/pkg/setup_experience/setup_experience.go`): `resultToListItem` and
the control flow of `SetupExperiencer.Run`, with the Go pointers that may be
nil rendered as `Option` and the side effects of the run (polling the status
endpoint, launching and updating the swiftDialog UI) recorded as an explicit
effect trace.
-/

/-! ## Part 1: the live-query distribution store (modelled from the spec) -/

/-- Error kinds surfaced by the store (spec section 7): `AlreadyExists` for a
name collision on Start, `NotFound` for Stop/Complete on an unknown or
already-gone campaign or pair. -/
inductive QueryErr
  | alreadyExists
  | notFound
deriving DecidableEq

/-- Modelled from the spec: a Campaign record of the Campaign Registry.
Attributes kept are the SQL text (opaque to this layer) and the target host
identifier set; the caller-supplied name acts as primary key and is kept as
the association key in the store, and the active flag is represented by
presence in the registry (an inactive campaign is no longer visible to host
lookups and is purged). -/
structure Campaign where
  sql : String
  targets : List Nat
deriving DecidableEq

/-- Modelled from the spec: the state owned by the live-query store.
`campaigns` is the Campaign Registry (active campaigns keyed by name);
`pending` holds one Pending Delivery Record per (campaign name, host
identifier) pair that has not yet completed; `completed` is the Completion
Tracker's per-(campaign, host) completion state. The spec identifies
campaigns by their unique caller-supplied name, which acts as primary key
and external identifier, so `CleanupInactiveQueries` receives a list of
names. -/
structure LiveQueryStore where
  campaigns : List (String × Campaign)
  pending : List (String × Nat)
  completed : List (String × Nat)
deriving DecidableEq

/-- The empty store: no campaigns, no pending deliveries, no completions. -/
def LiveQueryStore.init : LiveQueryStore :=
  { campaigns := [], pending := [], completed := [] }

/-- A campaign name is currently active when the registry holds it. -/
def LiveQueryStore.IsActive (s : LiveQueryStore) (name : String) : Prop :=
  ∃ q ∈ s.campaigns, q.1 = name

instance (s : LiveQueryStore) (name : String) : Decidable (s.IsActive name) :=
  List.decidableBEx _ s.campaigns

/-- Modelled from the spec: `Start(name, sql, hostIDs)`. If `name` is
currently active the call fails with `AlreadyExists` and changes nothing;
otherwise it atomically creates the Campaign and one Pending Delivery Record
per target host (any stale completion state recorded under the reused name
belongs to a previous campaign instance and is discarded). -/
def LiveQueryStore.RunQuery (s : LiveQueryStore) (name sql : String)
    (hostIDs : List Nat) : Except QueryErr LiveQueryStore :=
  if s.IsActive name then
    .error .alreadyExists
  else
    .ok { campaigns := (name, ⟨sql, hostIDs⟩) :: s.campaigns
          pending := hostIDs.map (fun h => (name, h)) ++ s.pending
          completed := s.completed.filter (fun p => decide (p.1 ≠ name)) }

/-- Modelled from the spec: `Stop(name)`. Marks the campaign inactive
(removes it from the registry) and removes all its Pending Delivery Records
regardless of completion state; stopping an already-inactive or unknown
campaign reports `NotFound`. -/
def LiveQueryStore.StopQuery (s : LiveQueryStore) (name : String) :
    Except QueryErr LiveQueryStore :=
  if s.IsActive name then
    .ok { campaigns := s.campaigns.filter (fun q => decide (q.1 ≠ name))
          pending := s.pending.filter (fun p => decide (p.1 ≠ name))
          completed := s.completed.filter (fun p => decide (p.1 ≠ name)) }
  else
    .error .notFound

/-- Modelled from the spec: `QueriesForHost(hostID)` returns, as a mapping
from campaign name to SQL text, every active campaign for which a Pending
Delivery Record still exists for that host; an empty mapping (never an
error) when the host has no pending queries. -/
def LiveQueryStore.QueriesForHost (s : LiveQueryStore) (hostID : Nat) :
    List (String × String) :=
  (s.campaigns.filter (fun q => decide ((q.1, hostID) ∈ s.pending))).map
    (fun q => (q.1, q.2.sql))

/-- Modelled from the spec: `CompleteForHost(name, hostID)` removes the
Pending Delivery Record for the pair if present and records the completion;
when no such record exists (already completed, never a target, or unknown
campaign) it reports `NotFound` and changes nothing. -/
def LiveQueryStore.QueryCompletedByHost (s : LiveQueryStore) (name : String)
    (hostID : Nat) : Except QueryErr LiveQueryStore :=
  if (name, hostID) ∈ s.pending then
    .ok { campaigns := s.campaigns
          pending := s.pending.filter (fun p => decide (p ≠ (name, hostID)))
          completed := (name, hostID) :: s.completed }
  else
    .error .notFound

/-- Modelled from the spec: `Cleanup(activeCampaignIDs)` evicts every
campaign held by the store whose identifier is absent from the supplied
list, removing its Pending Delivery Records, its index entries and its
completion state; campaigns whose identifier is present are untouched. -/
def LiveQueryStore.CleanupInactiveQueries (s : LiveQueryStore)
    (activeCampaignIDs : List String) : LiveQueryStore :=
  { campaigns := s.campaigns.filter (fun q => decide (q.1 ∈ activeCampaignIDs))
    pending := s.pending.filter (fun p => decide (p.1 ∈ activeCampaignIDs))
    completed := s.completed.filter (fun p => decide (p.1 ∈ activeCampaignIDs)) }

/-- One invocation of a state-changing store operation. -/
inductive StoreOp
  | runQ (name sql : String) (hostIDs : List Nat)
  | stopQ (name : String)
  | completeQ (name : String) (hostID : Nat)
  | cleanupQ (activeCampaignIDs : List String)
deriving DecidableEq

/-- Apply one operation to the store; a call that returns an error leaves
the state unchanged. -/
def LiveQueryStore.applyOp (s : LiveQueryStore) : StoreOp → LiveQueryStore
  | .runQ n q hs =>
    match s.RunQuery n q hs with
    | .ok t => t
    | .error _ => s
  | .stopQ n =>
    match s.StopQuery n with
    | .ok t => t
    | .error _ => s
  | .completeQ n h =>
    match s.QueryCompletedByHost n h with
    | .ok t => t
    | .error _ => s
  | .cleanupQ ids => s.CleanupInactiveQueries ids

/-- Apply a sequence of operations in order. -/
def LiveQueryStore.applyOps (s : LiveQueryStore) (ops : List StoreOp) :
    LiveQueryStore :=
  ops.foldl LiveQueryStore.applyOp s

/-- The spec's Pending-Delivery-Record invariant: a record exists if and
only if the campaign is active, the host is a declared target, and that host
has not yet completed the campaign; campaign names are unique among active
campaigns. -/
def LiveQueryStore.Inv (s : LiveQueryStore) : Prop :=
  (∀ p ∈ s.pending,
      ∃ q ∈ s.campaigns, q.1 = p.1 ∧ p.2 ∈ q.2.targets ∧ p ∉ s.completed)
  ∧ (∀ q ∈ s.campaigns, ∀ h ∈ q.2.targets,
      (q.1, h) ∈ s.completed ∨ (q.1, h) ∈ s.pending)
  ∧ s.campaigns.Pairwise (fun a b => a.1 ≠ b.1)

instance (s : LiveQueryStore) : Decidable s.Inv := by
  unfold LiveQueryStore.Inv
  infer_instance

/-- An operation that never removes the Pending Delivery Record of
(`name`, `h`): anything except `Stop name`, `CompleteForHost name h`, and a
cleanup pass whose active list omits `name`. -/
def StoreOp.keepsPendingOf (name : String) (h : Nat) : StoreOp → Bool
  | .runQ _ _ _ => true
  | .stopQ n => decide (n ≠ name)
  | .completeQ n h₀ => decide (¬ (n = name ∧ h₀ = h))
  | .cleanupQ ids => decide (name ∈ ids)

/-! ## Part 2: the setup-experience orchestrator
(`orbit/pkg/setup_experience/setup_experience.go`) -/

/-- Status of a setup-experience step as reported by the server
(`fleet.SetupExperienceStatus...`). -/
inductive SetupExperienceStatus
  | pending
  | running
  | success
  | failure
deriving DecidableEq

/-- One software-install or script step result
(`fleet.SetupExperienceStatusResult`); `isForScript` embeds the
`IsForScript` method of the result. -/
structure SetupExperienceStatusResult where
  name : String
  status : SetupExperienceStatus
  isForScript : Bool
deriving DecidableEq

/-- swiftDialog list-item display status (`swiftdialog.Status...`); only the
constructors used by this package are modelled. -/
inductive SwiftDialogStatus
  | wait
  | success
  | fail
deriving DecidableEq

/-- A swiftDialog list item (`swiftdialog.ListItem`). -/
structure ListItem where
  title : String
  status : SwiftDialogStatus
  statusText : String
deriving DecidableEq

/-- `resultToListItem`: maps a (non-nil) step result to the swiftDialog list
item shown for it, following the Go switch: failure maps to `fail`/"Failed";
success maps to `success` with "Ran" for a script and "Installed" otherwise;
every other status keeps the defaults `wait`/"Pending"; the title is always
the result's name. -/
def resultToListItem (result : SetupExperienceStatusResult) : ListItem :=
  match result.status with
  | .failure => { title := result.name, status := .fail, statusText := "Failed" }
  | .success =>
    { title := result.name
      status := .success
      statusText := if result.isForScript then "Ran" else "Installed" }
  | _ => { title := result.name, status := .wait, statusText := "Pending" }

/-- MDM bootstrap-package delivery status (`fleet.MDMBootstrapPackage...`). -/
inductive MDMBootstrapPackageStatus
  | pending
  | installed
  | failed
deriving DecidableEq

/-- MDM configuration-profile delivery status (`fleet.MDMDelivery...`). -/
inductive MDMDeliveryStatus
  | pending
  | verifying
  | verified
  | failed
deriving DecidableEq

/-- Bootstrap-package entry of the status payload. -/
structure SetupExperienceBootstrapPackageResult where
  status : MDMBootstrapPackageStatus
deriving DecidableEq

/-- Configuration-profile entry of the status payload. -/
structure SetupExperienceConfigurationProfileResult where
  status : MDMDeliveryStatus
deriving DecidableEq

/-- Account-configuration entry of the status payload; the Go code compares
its status against the literal string "pending". -/
structure SetupExperienceAccountConfigurationResult where
  status : String
deriving DecidableEq

/-- The `/orbit/setup_experience/status` payload
(`fleet.SetupExperienceStatusPayload`). Go pointer fields that may be nil
(`BootstrapPackage`, `AccountConfiguration`, `Script`, and each element of
the `Software` slice of pointers) are modelled as `Option`. -/
structure SetupExperienceStatusPayload where
  orgLogoURL : String
  bootstrapPackage : Option SetupExperienceBootstrapPackageResult
  configurationProfiles : List SetupExperienceConfigurationProfileResult
  accountConfiguration : Option SetupExperienceAccountConfigurationResult
  software : List (Option SetupExperienceStatusResult)
  script : Option SetupExperienceStatusResult
deriving DecidableEq

/-- `anyProfilePending`: true when some configuration profile is still in
MDM delivery status pending. -/
def anyProfilePending
    (profiles : List SetupExperienceConfigurationProfileResult) : Bool :=
  profiles.any fun p =>
    match p.status with
    | .pending => true
    | _ => false

/-- One observable side effect of `SetupExperiencer.Run`: polling the
status endpoint, launching the swiftDialog instance, or one of the UI
update calls made on it. -/
inductive RunEffect
  | pollStatus
  | launchDialog
  | addListItem (item : ListItem)
  | updateListItem (item : ListItem)
  | updateProgress
  | showList
  | updateProgressText
  | setMessage
  | completeProgress
  | enableButton1
deriving DecidableEq

/-- How a call to `SetupExperiencer.Run` ends: a nil return, the poll error
returned to the caller, the swiftDialog creation error returned to the
caller, or a nil-pointer dereference (a Go runtime panic). -/
inductive RunOutcome
  | ok
  | clientErr
  | dialogErr
  | nilDeref
deriving DecidableEq

/-- The environment a single `SetupExperiencer.Run` call observes:
whether `os.Stat` finds the swiftDialog binary at its expected local path,
the `RunSetupExperience` notification of the orbit config, the outcome of
`GetSetupExperienceStatus`, whether a previous call already started the
dialog (`s.started`), whether swiftDialog creation fails, and whether the
dialog's close channel has fired. -/
structure RunEnv where
  swiftDialogPresent : Bool
  runSetupExperience : Bool
  pollResult : Except Unit SetupExperienceStatusPayload
  started : Bool
  createFails : Bool
  dialogClosed : Bool

/-- The loop body over `steps`: on an already-started dialog the item is
updated by title, otherwise it is added. -/
def renderStep (started : Bool) (r : SetupExperienceStatusResult) : RunEffect :=
  if started then .updateListItem (resultToListItem r)
  else .addListItem (resultToListItem r)

/-- The `for _, r := range steps` loop of `Run`: emits one UI effect per
step and counts the steps whose status is failure or success (`stepsDone`).
A nil entry is dereferenced by `resultToListItem`, so the loop stops there
with the panic flag set, keeping only the effects already emitted. Returns
(effects, stepsDone, panicked). -/
def renderSteps (started : Bool) :
    List (Option SetupExperienceStatusResult) → List RunEffect × Nat × Bool
  | [] => ([], 0, false)
  | none :: _ => ([], 0, true)
  | some r :: rest =>
    let next := renderSteps started rest
    (renderStep started r :: next.1,
     (if r.status = .failure ∨ r.status = .success then 1 else 0) + next.2.1,
     next.2.2)

/-- `SetupExperiencer.Run`, as a function from the observed environment to
the call's outcome and the trace of its side effects, following the Go
control flow: return nil at once when the swiftDialog binary is absent or
the `RunSetupExperience` notification is off; poll the status endpoint and
return its error on failure; start swiftDialog when not yet started; return
nil when the dialog was closed or a bootstrap package, configuration
profile, or account configuration is still pending; otherwise render the
software/script list (`steps = Software with Script appended`), then the
progress calls, the completion block when every step is done, or just
enable the close button when there is nothing to render. -/
def SetupExperiencer.Run (env : RunEnv) : RunOutcome × List RunEffect :=
  if !env.swiftDialogPresent then (.ok, [])
  else if !env.runSetupExperience then (.ok, [])
  else
    match env.pollResult with
    | .error _ => (.clientErr, [.pollStatus])
    | .ok payload =>
      if !env.started && env.createFails then (.dialogErr, [.pollStatus])
      else
        let base : List RunEffect :=
          .pollStatus :: (if env.started then [] else [.launchDialog])
        if env.dialogClosed then (.ok, base)
        else if (match payload.bootstrapPackage with
                 | some bp =>
                   match bp.status with
                   | .pending => true
                   | _ => false
                 | none => false) then (.ok, base)
        else if anyProfilePending payload.configurationProfiles then (.ok, base)
        else if (match payload.accountConfiguration with
                 | some ac => ac.status == "pending"
                 | none => false) then (.ok, base)
        else if 0 < payload.software.length ∨ payload.script.isSome then
          let steps := payload.software ++ [payload.script]
          let rendered := renderSteps env.started steps
          if rendered.2.2 then (.nilDeref, base ++ rendered.1)
          else
            (.ok,
             base ++ rendered.1
               ++ [.updateProgress, .showList, .updateProgressText]
               ++ (if rendered.2.1 = steps.length then
                     [.setMessage, .completeProgress, .showList, .enableButton1]
                   else []))
        else (.ok, base ++ [.enableButton1])

/-! ## Helper lemmas about the store -/

/-- Membership in `QueriesForHost`: a (name, sql) pair is returned for a
host exactly when some registered campaign carries that name and SQL text
and a Pending Delivery Record for (name, host) exists. -/
theorem mem_QueriesForHost {s : LiveQueryStore} {hostID : Nat}
    {name sql : String} :
    (name, sql) ∈ s.QueriesForHost hostID ↔
      ∃ c, (name, c) ∈ s.campaigns ∧ c.sql = sql ∧ (name, hostID) ∈ s.pending := by
  unfold LiveQueryStore.QueriesForHost
  simp only [List.mem_map, List.mem_filter, decide_eq_true_eq]
  constructor
  · rintro ⟨⟨n, c⟩, ⟨hmem, hpend⟩, heq⟩
    obtain ⟨h1, h2⟩ := Prod.mk.injEq .. ▸ heq
    exact ⟨c, h1 ▸ hmem, h2, h1 ▸ hpend⟩
  · rintro ⟨c, hmem, hsql, hpend⟩
    exact ⟨(name, c), ⟨hmem, hpend⟩, by simp [hsql]⟩

/-- A name with a campaign entry in the registry is active. -/
theorem isActive_of_mem {s : LiveQueryStore} {name : String} {c : Campaign}
    (h : (name, c) ∈ s.campaigns) : s.IsActive name :=
  ⟨(name, c), h, rfl⟩

/-- Unfolding of a successful `RunQuery`. -/
theorem RunQuery_ok {s t : LiveQueryStore} {name sql : String}
    {hostIDs : List Nat} (h : s.RunQuery name sql hostIDs = .ok t) :
    ¬ s.IsActive name ∧
      t = { campaigns := (name, ⟨sql, hostIDs⟩) :: s.campaigns
            pending := hostIDs.map (fun h => (name, h)) ++ s.pending
            completed := s.completed.filter (fun p => decide (p.1 ≠ name)) } := by
  unfold LiveQueryStore.RunQuery at h
  split at h
  · exact absurd h (by simp)
  · exact ⟨by assumption, (Except.ok.injEq .. ▸ h).symm⟩

/-- Unfolding of a successful `StopQuery`. -/
theorem StopQuery_ok {s t : LiveQueryStore} {name : String}
    (h : s.StopQuery name = .ok t) :
    s.IsActive name ∧
      t = { campaigns := s.campaigns.filter (fun q => decide (q.1 ≠ name))
            pending := s.pending.filter (fun p => decide (p.1 ≠ name))
            completed := s.completed.filter (fun p => decide (p.1 ≠ name)) } := by
  unfold LiveQueryStore.StopQuery at h
  split at h
  · exact ⟨by assumption, (Except.ok.injEq .. ▸ h).symm⟩
  · exact absurd h (by simp)

/-- Unfolding of a successful `QueryCompletedByHost`. -/
theorem QueryCompletedByHost_ok {s t : LiveQueryStore} {name : String}
    {hostID : Nat} (h : s.QueryCompletedByHost name hostID = .ok t) :
    (name, hostID) ∈ s.pending ∧
      t = { campaigns := s.campaigns
            pending := s.pending.filter (fun p => decide (p ≠ (name, hostID)))
            completed := (name, hostID) :: s.completed } := by
  unfold LiveQueryStore.QueryCompletedByHost at h
  split at h
  · exact ⟨by assumption, (Except.ok.injEq .. ▸ h).symm⟩
  · exact absurd h (by simp)

/-- `QueryCompletedByHost` errors exactly when no Pending Delivery Record
exists for the pair. -/
theorem QueryCompletedByHost_error {s : LiveQueryStore} {name : String}
    {hostID : Nat} :
    s.QueryCompletedByHost name hostID = .error .notFound ↔
      (name, hostID) ∉ s.pending := by
  unfold LiveQueryStore.QueryCompletedByHost
  split
  · simp_all
  · simp_all

/-! ## Claims about the live-query store -/

/-- C7: for every host with no pending queries, `QueriesForHost` returns an
empty mapping (and, the lookup being total in this model, no error): an
empty result is a normal outcome, not a failure. -/
theorem c7_no_pending_queries_empty (s : LiveQueryStore) (hostID : Nat)
    (hnone : ∀ name, (name, hostID) ∉ s.pending) :
    s.QueriesForHost hostID = [] := by
  unfold LiveQueryStore.QueriesForHost
  have hfil : s.campaigns.filter (fun q => decide ((q.1, hostID) ∈ s.pending)) = [] := by
    rw [List.filter_eq_nil_iff]
    intro a _
    simpa using hnone a.1
  rw [hfil, List.map_nil]

/-- C7 witness: a host with no pending records gets the empty mapping. -/
theorem c7_no_pending_queries_empty_witness :
    LiveQueryStore.QueriesForHost
      ⟨[("q1", ⟨"SELECT 1", [5]⟩)], [("q1", 5)], []⟩ 7 = [] := by
  apply c7_no_pending_queries_empty
  intro name
  simp

/-- C2: after `StopQuery name` returns success, `QueriesForHost` no longer
contains `name` for any host, regardless of which hosts had completed the
query beforehand. -/
theorem c2_stop_clears_all_hosts (s t : LiveQueryStore) (name : String)
    (hstop : s.StopQuery name = .ok t) (hostID : Nat) (sql : String) :
    (name, sql) ∉ t.QueriesForHost hostID := by
  obtain ⟨-, rfl⟩ := StopQuery_ok hstop
  intro hmem
  obtain ⟨c, hc, -, -⟩ := mem_QueriesForHost.mp hmem
  have := (List.mem_filter.mp hc).2
  simp at this

/-- C2 witness: after stopping "q1" in a store where host 10 has completed
it and host 20 has not, neither host still sees it. -/
theorem c2_stop_clears_all_hosts_witness :
    ("q1", "SELECT 1") ∉ LiveQueryStore.QueriesForHost
      ⟨[], [], []⟩ 20 := by
  apply c2_stop_clears_all_hosts
    ⟨[("q1", ⟨"SELECT 1", [10, 20]⟩)], [("q1", 20)], [("q1", 10)]⟩ _ "q1"
  rfl

/-- C4: a `RunQuery` whose name is currently active fails with
`AlreadyExists` and leaves the store (the existing campaign's targets and
its Pending Delivery Records) unchanged; a `RunQuery` whose name is not
currently active succeeds. -/
theorem c4_start_collision_fails (s : LiveQueryStore) (name sql : String)
    (hostIDs : List Nat) :
    (s.IsActive name →
      s.RunQuery name sql hostIDs = .error .alreadyExists ∧
        s.applyOp (.runQ name sql hostIDs) = s)
    ∧ (¬ s.IsActive name → ∃ t, s.RunQuery name sql hostIDs = .ok t) := by
  constructor
  · intro hact
    have herr : s.RunQuery name sql hostIDs = .error .alreadyExists := by
      unfold LiveQueryStore.RunQuery
      rw [if_pos hact]
    refine ⟨herr, ?_⟩
    simp only [LiveQueryStore.applyOp, herr]
  · intro hact
    refine ⟨{ campaigns := (name, ⟨sql, hostIDs⟩) :: s.campaigns
              pending := hostIDs.map (fun h => (name, h)) ++ s.pending
              completed := s.completed.filter (fun p => decide (p.1 ≠ name)) }, ?_⟩
    unfold LiveQueryStore.RunQuery
    rw [if_neg hact]

/-- C4 witness: starting "q1" again while active fails and changes nothing;
starting a fresh name succeeds. -/
theorem c4_start_collision_fails_witness :
    (LiveQueryStore.RunQuery ⟨[("q1", ⟨"SELECT 1", [10]⟩)], [("q1", 10)], []⟩
        "q1" "SELECT 2" [99] = .error .alreadyExists ∧
      LiveQueryStore.applyOp ⟨[("q1", ⟨"SELECT 1", [10]⟩)], [("q1", 10)], []⟩
        (.runQ "q1" "SELECT 2" [99]) =
        ⟨[("q1", ⟨"SELECT 1", [10]⟩)], [("q1", 10)], []⟩)
    ∧ ∃ t, LiveQueryStore.RunQuery LiveQueryStore.init "q1" "SELECT 1" [10] = .ok t := by
  refine ⟨(c4_start_collision_fails _ "q1" "SELECT 2" [99]).1 ?_,
    (c4_start_collision_fails _ "q1" "SELECT 1" [10]).2 ?_⟩
  · exact ⟨("q1", ⟨"SELECT 1", [10]⟩), by decide⟩
  · decide

/-- C3: `CleanupInactiveQueries activeCampaignIDs` evicts exactly the
campaigns whose identifiers are absent from the supplied list — their
registry entries and Pending Delivery Records are gone, everything held for
a listed identifier survives verbatim — and the `QueriesForHost` visibility
of every campaign whose identifier is listed is unchanged for every host. -/
theorem c3_cleanup_evicts_exactly_absent (s : LiveQueryStore)
    (ids : List String) :
    (∀ name c, (name, c) ∈ (s.CleanupInactiveQueries ids).campaigns ↔
        ((name, c) ∈ s.campaigns ∧ name ∈ ids))
    ∧ (∀ name hostID, (name, hostID) ∈ (s.CleanupInactiveQueries ids).pending ↔
        ((name, hostID) ∈ s.pending ∧ name ∈ ids))
    ∧ (∀ name, name ∈ ids → ∀ hostID sql,
        ((name, sql) ∈ (s.CleanupInactiveQueries ids).QueriesForHost hostID ↔
          (name, sql) ∈ s.QueriesForHost hostID)) := by
  have hcamp : ∀ name c, (name, c) ∈ (s.CleanupInactiveQueries ids).campaigns ↔
      ((name, c) ∈ s.campaigns ∧ name ∈ ids) := by
    intro name c
    simp [LiveQueryStore.CleanupInactiveQueries, List.mem_filter]
  have hpend : ∀ name hostID,
      (name, hostID) ∈ (s.CleanupInactiveQueries ids).pending ↔
      ((name, hostID) ∈ s.pending ∧ name ∈ ids) := by
    intro name hostID
    simp [LiveQueryStore.CleanupInactiveQueries, List.mem_filter]
  refine ⟨hcamp, hpend, ?_⟩
  intro name hin hostID sql
  rw [mem_QueriesForHost, mem_QueriesForHost]
  constructor
  · rintro ⟨c, hc, hsql, hp⟩
    exact ⟨c, ((hcamp name c).mp hc).1, hsql, ((hpend name hostID).mp hp).1⟩
  · rintro ⟨c, hc, hsql, hp⟩
    exact ⟨c, (hcamp name c).mpr ⟨hc, hin⟩, hsql, (hpend name hostID).mpr ⟨hp, hin⟩⟩

/-- C3 witness: cleaning with active list ["q1"] evicts "q2" and keeps
"q1" visible to its host unchanged. -/
theorem c3_cleanup_evicts_exactly_absent_witness :
    (¬ (("q2", (⟨"SELECT 2", [7]⟩ : Campaign)) ∈
        (LiveQueryStore.CleanupInactiveQueries
          ⟨[("q1", ⟨"SELECT 1", [10]⟩), ("q2", ⟨"SELECT 2", [7]⟩)],
           [("q1", 10), ("q2", 7)], []⟩ ["q1"]).campaigns))
    ∧ (("q1", "SELECT 1") ∈
        (LiveQueryStore.CleanupInactiveQueries
          ⟨[("q1", ⟨"SELECT 1", [10]⟩), ("q2", ⟨"SELECT 2", [7]⟩)],
           [("q1", 10), ("q2", 7)], []⟩ ["q1"]).QueriesForHost 10 ↔
        ("q1", "SELECT 1") ∈
        (⟨[("q1", ⟨"SELECT 1", [10]⟩), ("q2", ⟨"SELECT 2", [7]⟩)],
          [("q1", 10), ("q2", 7)], []⟩ : LiveQueryStore).QueriesForHost 10) := by
  constructor
  · intro hmem
    have := ((c3_cleanup_evicts_exactly_absent _ ["q1"]).1 "q2" ⟨"SELECT 2", [7]⟩).mp hmem
    simp at this
  · exact (c3_cleanup_evicts_exactly_absent _ ["q1"]).2.2 "q1" (by decide) 10 "SELECT 1"

/-- Any operation that keeps the Pending Delivery Record of (`name`, `h`)
also preserves the campaign's registry entry and that record. -/
theorem visible_preserved (s : LiveQueryStore) (name sql : String) (h : Nat)
    (op : StoreOp) (hc : ∃ c, (name, c) ∈ s.campaigns ∧ c.sql = sql)
    (hp : (name, h) ∈ s.pending) (hop : op.keepsPendingOf name h = true) :
    (∃ c, (name, c) ∈ (s.applyOp op).campaigns ∧ c.sql = sql)
      ∧ (name, h) ∈ (s.applyOp op).pending := by
  obtain ⟨c, hcmem, hsql⟩ := hc
  cases op with
  | runQ n q hs =>
    cases hres : s.RunQuery n q hs with
    | error e =>
      simp only [LiveQueryStore.applyOp, hres]
      exact ⟨⟨c, hcmem, hsql⟩, hp⟩
    | ok t =>
      obtain ⟨-, rfl⟩ := RunQuery_ok hres
      simp only [LiveQueryStore.applyOp, hres]
      exact ⟨⟨c, List.mem_cons_of_mem _ hcmem, hsql⟩, List.mem_append_right _ hp⟩
  | stopQ n =>
    have hne : n ≠ name := by simpa [StoreOp.keepsPendingOf] using hop
    cases hres : s.StopQuery n with
    | error e =>
      simp only [LiveQueryStore.applyOp, hres]
      exact ⟨⟨c, hcmem, hsql⟩, hp⟩
    | ok t =>
      obtain ⟨-, rfl⟩ := StopQuery_ok hres
      simp only [LiveQueryStore.applyOp, hres]
      refine ⟨⟨c, List.mem_filter.mpr ⟨hcmem, ?_⟩, hsql⟩,
        List.mem_filter.mpr ⟨hp, ?_⟩⟩
      · simpa using (Ne.symm hne)
      · simpa using (Ne.symm hne)
  | completeQ n h₀ =>
    have hne : ¬n = name ∨ ¬h₀ = h := by
      simpa [StoreOp.keepsPendingOf] using hop
    cases hres : s.QueryCompletedByHost n h₀ with
    | error e =>
      simp only [LiveQueryStore.applyOp, hres]
      exact ⟨⟨c, hcmem, hsql⟩, hp⟩
    | ok t =>
      obtain ⟨-, rfl⟩ := QueryCompletedByHost_ok hres
      simp only [LiveQueryStore.applyOp, hres]
      refine ⟨⟨c, hcmem, hsql⟩, List.mem_filter.mpr ⟨hp, ?_⟩⟩
      simp only [decide_eq_true_eq]
      intro heq
      obtain ⟨h1, h2⟩ := Prod.mk.injEq .. ▸ heq
      rcases hne with hne | hne
      · exact hne h1.symm
      · exact hne h2.symm
  | cleanupQ ids =>
    have hin : name ∈ ids := by simpa [StoreOp.keepsPendingOf] using hop
    simp only [LiveQueryStore.applyOp, LiveQueryStore.CleanupInactiveQueries]
    refine ⟨⟨c, List.mem_filter.mpr ⟨hcmem, by simpa using hin⟩, hsql⟩,
      List.mem_filter.mpr ⟨hp, by simpa using hin⟩⟩

/-- C1: for every campaign started by a successful `RunQuery` with target
set `hostIDs`, and every host `h` in that set, `QueriesForHost h` keeps
returning the campaign's name mapped to its SQL text across any sequence of
further operations that contains no `StopQuery name`, no
`QueryCompletedByHost name h`, and no cleanup pass whose active list omits
`name`. -/
theorem c1_visible_until_removed (s s₁ : LiveQueryStore) (name sql : String)
    (hostIDs : List Nat) (h : Nat) (hh : h ∈ hostIDs)
    (hrun : s.RunQuery name sql hostIDs = .ok s₁) (ops : List StoreOp)
    (hops : ∀ op ∈ ops, op.keepsPendingOf name h = true) :
    (name, sql) ∈ (s₁.applyOps ops).QueriesForHost h := by
  suffices H : ∀ (l : List StoreOp) (t : LiveQueryStore),
      (∃ c, (name, c) ∈ t.campaigns ∧ c.sql = sql) → (name, h) ∈ t.pending →
      (∀ op ∈ l, op.keepsPendingOf name h = true) →
      (name, sql) ∈ (t.applyOps l).QueriesForHost h by
    obtain ⟨-, rfl⟩ := RunQuery_ok hrun
    refine H ops _ ⟨⟨sql, hostIDs⟩, List.mem_cons_self .., rfl⟩ ?_ hops
    exact List.mem_append_left _ (List.mem_map.mpr ⟨h, hh, rfl⟩)
  intro l
  induction l with
  | nil =>
    intro t hc hp _
    obtain ⟨c, hcm, hsql⟩ := hc
    exact mem_QueriesForHost.mpr ⟨c, hcm, hsql, hp⟩
  | cons op rest ih =>
    intro t hc hp hl
    have hstep := visible_preserved t name sql h op hc hp
      (hl op (List.mem_cons_self ..))
    exact ih _ hstep.1 hstep.2 (fun o ho => hl o (List.mem_cons_of_mem _ ho))

/-- C1 witness: after starting "q1" targeting hosts 10 and 20, a completion
by the other host 20 and a cleanup pass that keeps "q1" leave the query
visible to host 10. -/
theorem c1_visible_until_removed_witness :
    ("q1", "SELECT 1") ∈
      (LiveQueryStore.applyOps
        ⟨[("q1", ⟨"SELECT 1", [10, 20]⟩)], [("q1", 10), ("q1", 20)], []⟩
        [.completeQ "q1" 20, .cleanupQ ["q1"], .runQ "q2" "SELECT 2" [10],
         .stopQ "q2"]).QueriesForHost 10 := by
  apply c1_visible_until_removed LiveQueryStore.init _ "q1" "SELECT 1" [10, 20] 10
    (by decide) rfl
  intro op hop
  fin_cases hop <;> decide

/-- With unique campaign names, two registry entries sharing a name are the
same entry. -/
theorem campaign_entry_unique {s : LiveQueryStore} (hInv : s.Inv)
    {q₁ q₂ : String × Campaign} (h₁ : q₁ ∈ s.campaigns)
    (h₂ : q₂ ∈ s.campaigns) (hkey : q₁.1 = q₂.1) : q₁ = q₂ := by
  by_contra hne
  exact hInv.2.2.forall (fun a b hab => (hab ∘ Eq.symm : b.1 ≠ a.1))
    h₁ h₂ hne hkey

/-- An erroring `QueryCompletedByHost` leaves the state unchanged. -/
theorem applyOp_completeQ_error {s : LiveQueryStore} {name : String}
    {hostID : Nat} (h : s.QueryCompletedByHost name hostID = .error .notFound) :
    s.applyOp (.completeQ name hostID) = s := by
  simp only [LiveQueryStore.applyOp, h]

/-- C5: `QueryCompletedByHost` is idempotent in effect. After a successful
completion of (name, host) the second call returns `NotFound` and changes no
state; the same NotFound-without-change outcome holds when the host is not
among the campaign's declared targets, or when no campaign with that name
exists. -/
theorem c5_complete_idempotent (s : LiveQueryStore) (hInv : s.Inv)
    (name : String) (hostID : Nat) :
    (∀ t, s.QueryCompletedByHost name hostID = .ok t →
      t.QueryCompletedByHost name hostID = .error .notFound ∧
        t.applyOp (.completeQ name hostID) = t)
    ∧ (∀ c, (name, c) ∈ s.campaigns → hostID ∉ c.targets →
        s.QueryCompletedByHost name hostID = .error .notFound ∧
          s.applyOp (.completeQ name hostID) = s)
    ∧ ((∀ c, (name, c) ∉ s.campaigns) →
        s.QueryCompletedByHost name hostID = .error .notFound ∧
          s.applyOp (.completeQ name hostID) = s) := by
  refine ⟨?_, ?_, ?_⟩
  · intro t hok
    obtain ⟨-, rfl⟩ := QueryCompletedByHost_ok hok
    have herr : LiveQueryStore.QueryCompletedByHost
        { campaigns := s.campaigns
          pending := s.pending.filter (fun p => decide (p ≠ (name, hostID)))
          completed := (name, hostID) :: s.completed } name hostID
        = .error .notFound := by
      rw [QueryCompletedByHost_error]
      intro hmem
      have := (List.mem_filter.mp hmem).2
      simp at this
    exact ⟨herr, applyOp_completeQ_error herr⟩
  · intro c hcm htg
    have hnp : (name, hostID) ∉ s.pending := by
      intro hmem
      obtain ⟨q, hqm, hkey, hht, -⟩ := hInv.1 _ hmem
      have := campaign_entry_unique hInv hqm hcm hkey
      rw [this] at hht
      exact htg hht
    have herr := QueryCompletedByHost_error.mpr hnp
    exact ⟨herr, applyOp_completeQ_error herr⟩
  · intro hnc
    have hnp : (name, hostID) ∉ s.pending := by
      intro hmem
      obtain ⟨q, hqm, hkey, -, -⟩ := hInv.1 _ hmem
      exact hnc q.2 (by rwa [show (name, q.2) = q from Prod.ext hkey.symm rfl])
    have herr := QueryCompletedByHost_error.mpr hnp
    exact ⟨herr, applyOp_completeQ_error herr⟩

/-- C5 witness: in a store where host 10 already completed "q1", a repeat
completion, a completion by non-target host 99, and a completion of the
unknown campaign "zz" all return NotFound and change nothing. -/
theorem c5_complete_idempotent_witness :
    (LiveQueryStore.QueryCompletedByHost
        ⟨[("q1", ⟨"SELECT 1", [10, 20]⟩)], [("q1", 20)], [("q1", 10)]⟩
        "q1" 99 = .error .notFound ∧
      LiveQueryStore.applyOp
        ⟨[("q1", ⟨"SELECT 1", [10, 20]⟩)], [("q1", 20)], [("q1", 10)]⟩
        (.completeQ "q1" 99) =
        ⟨[("q1", ⟨"SELECT 1", [10, 20]⟩)], [("q1", 20)], [("q1", 10)]⟩)
    ∧ (LiveQueryStore.QueryCompletedByHost
        ⟨[("q1", ⟨"SELECT 1", [10, 20]⟩)], [("q1", 20)], [("q1", 10)]⟩
        "zz" 10 = .error .notFound ∧
      LiveQueryStore.applyOp
        ⟨[("q1", ⟨"SELECT 1", [10, 20]⟩)], [("q1", 20)], [("q1", 10)]⟩
        (.completeQ "zz" 10) =
        ⟨[("q1", ⟨"SELECT 1", [10, 20]⟩)], [("q1", 20)], [("q1", 10)]⟩) := by
  constructor
  · refine (c5_complete_idempotent _ (by decide) "q1" 99).2.1
      ⟨"SELECT 1", [10, 20]⟩ ?_ ?_
    · decide
    · decide
  · refine (c5_complete_idempotent _ (by decide) "zz" 10).2.2 ?_
    intro c hmem
    have : ("zz", c).1 = "q1" := by
      rcases List.mem_singleton.mp hmem with h
      exact congrArg Prod.fst h
    simp at this

/-- A successful `RunQuery` preserves the store invariant. -/
theorem Inv_RunQuery {s t : LiveQueryStore} {name sql : String}
    {hostIDs : List Nat} (hInv : s.Inv)
    (h : s.RunQuery name sql hostIDs = .ok t) : t.Inv := by
  obtain ⟨hna, rfl⟩ := RunQuery_ok h
  obtain ⟨h1, h2, h3⟩ := hInv
  refine ⟨?_, ?_, ?_⟩
  · intro p hp
    rcases List.mem_append.mp hp with hnew | hold
    · obtain ⟨h₀, hh₀, rfl⟩ := List.mem_map.mp hnew
      refine ⟨(name, ⟨sql, hostIDs⟩), List.mem_cons_self .., rfl, hh₀, ?_⟩
      intro hmem
      have := (List.mem_filter.mp hmem).2
      simp at this
    · obtain ⟨q, hqm, hkey, htg, hnc⟩ := h1 p hold
      exact ⟨q, List.mem_cons_of_mem _ hqm, hkey, htg,
        fun hmem => hnc (List.mem_filter.mp hmem).1⟩
  · intro q hq h₀ hh₀
    rcases List.mem_cons.mp hq with rfl | hold
    · right
      exact List.mem_append_left _ (List.mem_map.mpr ⟨h₀, hh₀, rfl⟩)
    · rcases h2 q hold h₀ hh₀ with hc | hp
      · left
        refine List.mem_filter.mpr ⟨hc, ?_⟩
        have : q.1 ≠ name := fun he => hna ⟨q, hold, he⟩
        simpa using this
      · right
        exact List.mem_append_right _ hp
  · refine List.pairwise_cons.mpr ⟨?_, h3⟩
    intro b hb heq
    exact hna ⟨b, hb, heq.symm⟩

/-- A successful `StopQuery` preserves the store invariant. -/
theorem Inv_StopQuery {s t : LiveQueryStore} {name : String} (hInv : s.Inv)
    (h : s.StopQuery name = .ok t) : t.Inv := by
  obtain ⟨-, rfl⟩ := StopQuery_ok h
  obtain ⟨h1, h2, h3⟩ := hInv
  refine ⟨?_, ?_, ?_⟩
  · intro p hp
    obtain ⟨hold, hne⟩ := List.mem_filter.mp hp
    replace hne : p.1 ≠ name := by simpa using hne
    obtain ⟨q, hqm, hkey, htg, hnc⟩ := h1 p hold
    exact ⟨q, List.mem_filter.mpr ⟨hqm, by simpa [hkey] using hne⟩, hkey, htg,
      fun hmem => hnc (List.mem_filter.mp hmem).1⟩
  · intro q hq h₀ hh₀
    obtain ⟨hold, hne⟩ := List.mem_filter.mp hq
    replace hne : q.1 ≠ name := by simpa using hne
    rcases h2 q hold h₀ hh₀ with hc | hp
    · left
      exact List.mem_filter.mpr ⟨hc, by simpa using hne⟩
    · right
      exact List.mem_filter.mpr ⟨hp, by simpa using hne⟩
  · exact h3.sublist (List.filter_sublist _)

/-- A successful `QueryCompletedByHost` preserves the store invariant. -/
theorem Inv_QueryCompletedByHost {s t : LiveQueryStore} {name : String}
    {hostID : Nat} (hInv : s.Inv)
    (h : s.QueryCompletedByHost name hostID = .ok t) : t.Inv := by
  obtain ⟨-, rfl⟩ := QueryCompletedByHost_ok h
  obtain ⟨h1, h2, h3⟩ := hInv
  refine ⟨?_, ?_, ?_⟩
  · intro p hp
    obtain ⟨hold, hne⟩ := List.mem_filter.mp hp
    replace hne : p ≠ (name, hostID) := by simpa using hne
    obtain ⟨q, hqm, hkey, htg, hnc⟩ := h1 p hold
    refine ⟨q, hqm, hkey, htg, ?_⟩
    intro hmem
    rcases List.mem_cons.mp hmem with he | hmem2
    · exact hne he
    · exact hnc hmem2
  · intro q hq h₀ hh₀
    rcases h2 q hq h₀ hh₀ with hc | hp
    · left
      exact List.mem_cons_of_mem _ hc
    · by_cases he : (q.1, h₀) = (name, hostID)
      · left
        rw [he]
        exact List.mem_cons_self ..
      · right
        refine List.mem_filter.mpr ⟨hp, ?_⟩
        simp only [decide_eq_true_eq]
        exact he
  · exact h3

/-- `CleanupInactiveQueries` preserves the store invariant. -/
theorem Inv_CleanupInactiveQueries {s : LiveQueryStore}
    {ids : List String} (hInv : s.Inv) :
    (s.CleanupInactiveQueries ids).Inv := by
  obtain ⟨h1, h2, h3⟩ := hInv
  refine ⟨?_, ?_, ?_⟩
  · intro p hp
    obtain ⟨hold, hin⟩ := List.mem_filter.mp hp
    replace hin : p.1 ∈ ids := by simpa using hin
    obtain ⟨q, hqm, hkey, htg, hnc⟩ := h1 p hold
    exact ⟨q, List.mem_filter.mpr ⟨hqm, by simpa [hkey] using hin⟩, hkey, htg,
      fun hmem => hnc (List.mem_filter.mp hmem).1⟩
  · intro q hq h₀ hh₀
    obtain ⟨hold, hin⟩ := List.mem_filter.mp hq
    replace hin : q.1 ∈ ids := by simpa using hin
    rcases h2 q hold h₀ hh₀ with hc | hp
    · left
      exact List.mem_filter.mpr ⟨hc, by simpa using hin⟩
    · right
      exact List.mem_filter.mpr ⟨hp, by simpa using hin⟩
  · exact h3.sublist (List.filter_sublist _)

/-- Every store operation preserves the invariant. -/
theorem Inv_applyOp {s : LiveQueryStore} (hInv : s.Inv) (op : StoreOp) :
    (s.applyOp op).Inv := by
  cases op with
  | runQ n q hs =>
    cases hres : s.RunQuery n q hs with
    | error e => simpa only [LiveQueryStore.applyOp, hres] using hInv
    | ok t =>
      simpa only [LiveQueryStore.applyOp, hres] using Inv_RunQuery hInv hres
  | stopQ n =>
    cases hres : s.StopQuery n with
    | error e => simpa only [LiveQueryStore.applyOp, hres] using hInv
    | ok t =>
      simpa only [LiveQueryStore.applyOp, hres] using Inv_StopQuery hInv hres
  | completeQ n h =>
    cases hres : s.QueryCompletedByHost n h with
    | error e => simpa only [LiveQueryStore.applyOp, hres] using hInv
    | ok t =>
      simpa only [LiveQueryStore.applyOp, hres] using
        Inv_QueryCompletedByHost hInv hres
  | cleanupQ ids =>
    have hclean : (s.CleanupInactiveQueries ids).Inv :=
      Inv_CleanupInactiveQueries hInv
    simpa only [LiveQueryStore.applyOp] using hclean

/-- The invariant holds in every state reached from an invariant state. -/
theorem Inv_applyOps {s : LiveQueryStore} (hInv : s.Inv) (ops : List StoreOp) :
    (s.applyOps ops).Inv := by
  induction ops generalizing s with
  | nil => exact hInv
  | cons op rest ih => exact ih (Inv_applyOp hInv op)

/-- C6: in every reachable store state a Pending Delivery Record for
(campaign, host) exists exactly when the campaign is active, the host is a
declared target, and the host has not yet completed it (with active
campaign names unique); and `RunQuery` - the only state-changing operation
other than Stop, Complete and Cleanup - never removes a Pending Delivery
Record. -/
theorem c6_pending_record_invariant (ops : List StoreOp) :
    (LiveQueryStore.init.applyOps ops).Inv
    ∧ (∀ (s : LiveQueryStore) (name sql : String) (hostIDs : List Nat)
        (p : String × Nat), p ∈ s.pending →
        p ∈ (s.applyOp (.runQ name sql hostIDs)).pending) := by
  constructor
  · exact Inv_applyOps (by decide) ops
  · intro s name sql hostIDs p hp
    cases hres : s.RunQuery name sql hostIDs with
    | error e => simpa only [LiveQueryStore.applyOp, hres] using hp
    | ok t =>
      obtain ⟨-, rfl⟩ := RunQuery_ok hres
      simp only [LiveQueryStore.applyOp, hres]
      exact List.mem_append_right _ hp

/-- C6 witness: the invariant holds after a concrete run/complete/stop
sequence, and a fresh `RunQuery` keeps an existing record. -/
theorem c6_pending_record_invariant_witness :
    (LiveQueryStore.init.applyOps
      [.runQ "q1" "SELECT 1" [10, 20], .completeQ "q1" 10,
       .runQ "q2" "SELECT 2" [10], .stopQ "q1"]).Inv
    ∧ ("q1", 10) ∈ (LiveQueryStore.applyOp ⟨[], [("q1", 10)], []⟩
        (.runQ "q2" "SELECT 2" [5])).pending := by
  exact ⟨(c6_pending_record_invariant _).1,
    (c6_pending_record_invariant []).2 _ "q2" "SELECT 2" [5] ("q1", 10)
      (by decide)⟩

/-! ## Claims about the setup-experience orchestrator -/

/-- A status payload whose poll succeeds with one non-nil software result
and a nil script: the guard `len(Software) > 0 || Script != nil` is taken
on the software side, so `steps = Software with Script appended` ends in a
nil entry. -/
def nilScriptPayload : SetupExperienceStatusPayload :=
  { orgLogoURL := ""
    bootstrapPackage := none
    configurationProfiles := []
    accountConfiguration := none
    software := [some ⟨"Google Chrome", .running, false⟩]
    script := none }

/-- The environment reaching the steps loop with `nilScriptPayload`: the
swiftDialog binary is present, the RunSetupExperience notification is on,
the poll succeeds, and nothing upstream short-circuits the call. -/
def nilScriptEnv : RunEnv :=
  { swiftDialogPresent := true
    runSetupExperience := true
    pollResult := .ok nilScriptPayload
    started := false
    createFails := false
    dialogClosed := false }

/-- C8 evaluation: with a non-empty software list and a nil script, `Run`
reaches `resultToListItem` on the appended nil entry and dereferences it —
the run ends in a nil-pointer panic, not a nil return. -/
theorem c8_nil_script_panics :
    (SetupExperiencer.Run nilScriptEnv).1 = RunOutcome.nilDeref := rfl

/-- C9: `resultToListItem` is a total deterministic mapping on (non-nil)
results: failure maps to `fail`/"Failed"; success maps to `success` with
"Ran" for a script result and "Installed" otherwise; every other status
maps to `wait`/"Pending"; the item's title always equals the result's
name. -/
theorem c9_result_to_list_item_cases (r : SetupExperienceStatusResult) :
    (resultToListItem r).title = r.name
    ∧ (r.status = .failure →
        (resultToListItem r).status = .fail ∧
          (resultToListItem r).statusText = "Failed")
    ∧ (r.status = .success →
        (resultToListItem r).status = .success ∧
          (resultToListItem r).statusText =
            (if r.isForScript then "Ran" else "Installed"))
    ∧ (r.status ≠ .failure → r.status ≠ .success →
        (resultToListItem r).status = .wait ∧
          (resultToListItem r).statusText = "Pending") := by
  obtain ⟨name, status, isForScript⟩ := r
  cases status <;> simp [resultToListItem]

/-- C9 witness: concrete evaluations through the theorem for a failed
install, a successful script, and a still-running step. -/
theorem c9_result_to_list_item_cases_witness :
    ((resultToListItem ⟨"pkg", .failure, false⟩).status = .fail ∧
      (resultToListItem ⟨"pkg", .failure, false⟩).statusText = "Failed")
    ∧ ((resultToListItem ⟨"run.sh", .success, true⟩).status = .success ∧
      (resultToListItem ⟨"run.sh", .success, true⟩).statusText =
        (if (true : Bool) then "Ran" else "Installed"))
    ∧ ((resultToListItem ⟨"pkg2", .running, false⟩).status = .wait ∧
      (resultToListItem ⟨"pkg2", .running, false⟩).statusText = "Pending") :=
  ⟨(c9_result_to_list_item_cases ⟨"pkg", .failure, false⟩).2.1 rfl,
   (c9_result_to_list_item_cases ⟨"run.sh", .success, true⟩).2.2.1 rfl,
   (c9_result_to_list_item_cases ⟨"pkg2", .running, false⟩).2.2.2
     (by decide) (by decide)⟩

/-- C10: whenever the swiftDialog binary is absent from its expected local
path, or the orbit config's RunSetupExperience notification is false, `Run`
returns nil with an empty effect trace: it neither polls the setup-
experience status endpoint nor launches or updates any UI. -/
theorem c10_skip_without_binary_or_notification (env : RunEnv)
    (h : env.swiftDialogPresent = false ∨ env.runSetupExperience = false) :
    SetupExperiencer.Run env = (.ok, []) := by
  unfold SetupExperiencer.Run
  rcases h with h | h
  · rw [h]
    rfl
  · rw [h]
    cases hb : env.swiftDialogPresent <;> rfl

/-- C10 witness: both skip conditions at a concrete environment. -/
theorem c10_skip_without_binary_or_notification_witness :
    SetupExperiencer.Run { nilScriptEnv with swiftDialogPresent := false }
        = (.ok, [])
    ∧ SetupExperiencer.Run { nilScriptEnv with runSetupExperience := false }
        = (.ok, []) :=
  ⟨c10_skip_without_binary_or_notification _ (Or.inl rfl),
   c10_skip_without_binary_or_notification _ (Or.inr rfl)⟩
